import Mathlib

/-!
Verification development for the ground-station optimization MILP engine
(gsopt).  The Python sources under gsopt/ are shallowly embedded here:
times, rates and costs become rationals, entity identifiers become
naturals (or character lists where case-insensitive matching matters),
binary decision variables become boolean/rational valuations, and each
constraint or objective generator becomes a pure function from the entity
catalog to an explicit list of emitted linear constraints.  Python
dictionaries keyed by id are embedded as lists; iterating a dictionary
sorted by a key and grouping with itertools.groupby is embedded as
iterating the deduplicated key list and filtering, which yields the same
groups (stable sort followed by groupby groups exactly the equal-key
elements, preserving relative order).  Fallible code returns Except.
-/

namespace GSOpt

/-- Contact record, from models.Contact: window times, duration, effective
data rate and the station cost fields copied onto the contact. -/
structure Contact where
  id : ℕ
  station : ℕ
  satellite : ℕ
  t_start : ℚ
  t_end : ℚ
  t_duration : ℚ
  datarate : ℚ
  cost_per_pass : ℚ
  cost_per_minute : ℚ
deriving DecidableEq

/-- Station record, from models.GroundStation: identity, owning provider and
antenna count (the only fields the embedded generators read). -/
structure Station where
  id : ℕ
  provider : ℕ
  antennas : ℕ
deriving DecidableEq

/-- models.Contact sets self.cost = station.cost_per_pass +
self.t_duration/60*station.cost_per_minute (duration converted to minutes). -/
def Contact.cost (c : Contact) : ℚ :=
  c.cost_per_pass + c.t_duration / 60 * c.cost_per_minute

/-- Optimization window durations T_opt = opt_end - opt_start and
T_sim = sim_end - sim_start, from models.OptimizationWindow. -/
structure OptimizationWindow where
  T_opt : ℚ
  T_sim : ℚ
deriving DecidableEq

/-- Per-contact term added to the MinCostObjective expression
(milp_objectives.py line 80): the coefficient of the contact variable is
T_opt / T_sim * (t_duration * cost_per_minute + cost_per_pass), with
t_duration in seconds. -/
def minCostContactTerm (w : OptimizationWindow) (c : Contact) : ℚ :=
  w.T_opt / w.T_sim * (c.t_duration * c.cost_per_minute + c.cost_per_pass)

/-- Modelled from the spec: the per-contact cost term the specification
describes, (opt_duration / sim_duration) times the pass cost, where pass
cost is cost-per-pass plus duration-in-minutes times cost-per-minute. -/
def specContactPassCostTerm (w : OptimizationWindow) (c : Contact) : ℚ :=
  w.T_opt / w.T_sim * (c.cost_per_pass + c.t_duration / 60 * c.cost_per_minute)

/-- C3: the MinCostObjective contact term multiplies cost_per_minute by the
duration in seconds, not minutes.  On a 120-second contact with
cost_per_minute = 1, cost_per_pass = 0 and T_opt = T_sim = 1, the code
contributes coefficient 120 while the specified pass cost is 2 (which is
exactly the scaled Contact.cost of models.py).  The two disagree. -/
theorem minCost_contact_term_uses_seconds_not_minutes :
    minCostContactTerm ⟨1, 1⟩ ⟨0, 0, 0, 0, 120, 120, 0, 0, 1⟩ = 120
    ∧ specContactPassCostTerm ⟨1, 1⟩ ⟨0, 0, 0, 0, 120, 120, 0, 0, 1⟩ = 2
    ∧ specContactPassCostTerm ⟨1, 1⟩ ⟨0, 0, 0, 0, 120, 120, 0, 0, 1⟩ =
        (1 : ℚ) / 1 * Contact.cost ⟨0, 0, 0, 0, 120, 120, 0, 0, 1⟩
    ∧ minCostContactTerm ⟨1, 1⟩ ⟨0, 0, 0, 0, 120, 120, 0, 0, 1⟩ ≠
        specContactPassCostTerm ⟨1, 1⟩ ⟨0, 0, 0, 0, 120, 120, 0, 0, 1⟩ := by
  refine ⟨by norm_num [minCostContactTerm], by norm_num [specContactPassCostTerm],
    by norm_num [specContactPassCostTerm, Contact.cost], by norm_num [minCostContactTerm, specContactPassCostTerm]⟩

/-! ## Solve-step error handling (milp_optimizer.MilpOptimizer.solve) -/

/-- Mutable solver-related attributes of the optimizer around one solve call:
the termination condition carried by self.solution (absent when the
attribute was never assigned) and self.solver_status. -/
structure SolveState where
  solutionStatus : Option String
  solverStatus : String

/-- Outcome of the external solver invocation: either a normal return
carrying a termination condition, or a raised ApplicationError. -/
inductive SolverRunResult
| success (termination : String)
| applicationError

/-- One call of MilpOptimizer.solve past problem generation, from
milp_optimizer.py lines 319 to 325: the try block assigns self.solution
on success; an ApplicationError is caught and logged without re-raising;
then, outside the try block, self.solver_status is unconditionally set
from self.solution.solver.termination_condition, which raises
AttributeError when self.solution was never assigned. -/
def MilpOptimizer.solveStep (st : SolveState) (r : SolverRunResult) :
    Except String SolveState :=
  let st1 : SolveState :=
    match r with
    | .success t => { st with solutionStatus := some t }
    | .applicationError => st
  match st1.solutionStatus with
  | some t => .ok { st1 with solverStatus := t }
  | none => .error ("AttributeError: MilpOptimizer has no attribute solution")

/-- State after GroundStationOptimizer init: solver_status is the string
Not Solved and no solution attribute exists yet. -/
def MilpOptimizer.initState : SolveState :=
  { solutionStatus := none, solverStatus := "Not Solved" }

/-- C1: when the first solver invocation raises an application error, solve
does not complete: the ApplicationError itself is caught, but the
subsequent unconditional read of self.solution raises AttributeError
because no solution object exists.  Only on a re-solve, when a previous
solution exists, does solve swallow the error and report the stale
termination status. -/
theorem solve_first_call_application_error_raises :
    MilpOptimizer.solveStep MilpOptimizer.initState .applicationError =
      .error ("AttributeError: MilpOptimizer has no attribute solution")
    ∧ MilpOptimizer.solveStep
        { solutionStatus := some ("optimal"), solverStatus := "optimal" }
        .applicationError =
      .ok { solutionStatus := some ("optimal"), solverStatus := "optimal" } :=
  ⟨rfl, rfl⟩

/-! ## RequireProviderConstraint (milp_constraints.py lines 511 to 549) -/

/-- Identifier strings are embedded as character lists so that the
case-insensitive lower() comparison stays computable. -/
abbrev Str := List Char

/-- Python str.lower() on an identifier. -/
def strLower (s : Str) : Str := s.map Char.toLower

/-- Provider record: id and display name, from models.GroundStationProvider. -/
structure Provider where
  id : Str
  name : Str
deriving DecidableEq

/-- RequireProviderConstraint constructor: only checks that a key was
provided; no catalog lookup happens at construction time. -/
def RequireProviderConstraint.init (key : Option Str) : Except Str Unit :=
  match key with
  | none => .error []
  | some _ => .ok ()

/-- Key matching inside RequireProviderConstraint._generate_constraints:
first, if the key equals some provider id, matched_id is set to the key;
then the loop over all providers runs unconditionally and overwrites
matched_id with the id of the first provider whose lowercased name equals
the lowercased key, if any. -/
def RequireProviderConstraint.matchKey (key : Str) (providers : List Provider) :
    Option Str :=
  let fromId : Option Str :=
    if providers.any (fun pn => pn.id == key) then some key else none
  match providers.find? (fun pn => strLower pn.name == strLower key) with
  | some pn => some pn.id
  | none => fromId

/-- RequireProviderConstraint._generate_constraints: a successful match
emits the constraint fixing that provider variable to 1 (we return the
constrained provider id); no match raises a RuntimeError naming the key. -/
def RequireProviderConstraint.generate (key : Str) (providers : List Provider) :
    Except Str Str :=
  match RequireProviderConstraint.matchKey key providers with
  | some i => .ok i
  | none => .error key

/-- C2: the id match does not take precedence.  Against a catalog where
provider p1 is named alpha and provider p2 is named P1, generating
RequireProviderConstraint with key p1 constrains p2 — the case-insensitive
name loop runs even though the key matched the id p1 exactly, and
overwrites the id match.  The not-found error and the
generation-time-only lookup behave as claimed. -/
theorem requireProvider_name_match_overrides_id_match :
    RequireProviderConstraint.generate (['p', '1'])
        [⟨['p', '1'], ['a', 'l', 'p', 'h', 'a']⟩, ⟨['p', '2'], ['P', '1']⟩] =
      .ok (['p', '2'])
    ∧ ([⟨['p', '1'], ['a', 'l', 'p', 'h', 'a']⟩, ⟨['p', '2'], ['P', '1']⟩] :
        List Provider).any (fun pn => pn.id == ['p', '1']) = true
    ∧ RequireProviderConstraint.generate (['z'])
        [⟨['p', '1'], ['a', 'l', 'p', 'h', 'a']⟩, ⟨['p', '2'], ['P', '1']⟩] =
      .error (['z'])
    ∧ RequireProviderConstraint.init (some ['z']) = .ok () := by
  refine ⟨rfl, by decide, rfl, rfl⟩

/-! ## Eager parameter validation at construction (milp_constraints.py) -/

/-- Decide whether an embedded constructor call raised. -/
def isError {α : Type} (e : Except String α) : Bool :=
  match e with
  | .error _ => true
  | .ok _ => false

/-- MinConstellationDataDownlinkConstraint constructor checks, in order:
period, value, step must each be positive (lines 58 to 65). -/
def MinConstellationDataDownlinkConstraint.init (value period step : ℚ) :
    Except String Unit :=
  if period ≤ 0 then .error ("Period must be greater than zero.")
  else if value ≤ 0 then .error ("Limit must be greater than zero.")
  else if step ≤ 0 then .error ("Step must be greater than zero.")
  else .ok ()

/-- MaxContactsPerPeriodConstraint constructor checks (lines 469 to 476):
period, value, step must each be positive; value is an integer count. -/
def MaxContactsPerPeriodConstraint.init (value : ℤ) (period step : ℚ) :
    Except String Unit :=
  if period ≤ 0 then .error ("Period must be greater than zero.")
  else if value ≤ 0 then .error ("Limit must be greater than zero.")
  else if step ≤ 0 then .error ("Step must be greater than zero.")
  else .ok ()

/-- MinContactDurationConstraint constructor check (lines 437 to 438). -/
def MinContactDurationConstraint.init (min_duration : ℚ) :
    Except String Unit :=
  if min_duration ≤ 0 then .error ("Minimum duration must be greater than zero.")
  else .ok ()

/-- Python truthiness of an optional float: None and 0.0 are falsy, every
other number including negatives is truthy. -/
def pyFalsy (v : Option ℚ) : Bool :=
  match v with
  | none => true
  | some x => x == 0

/-- MaxOperationalCostConstraint constructor (lines 205 to 212): the guard
is if not value, i.e. it raises only when value is absent or zero. -/
def MaxOperationalCostConstraint.init (value : Option ℚ) :
    Except String Unit :=
  if pyFalsy value then .error ("Value must be provided.") else .ok ()

/-- MaxContactGapConstraint constructor (lines 356 to 363): the guard is
if not value, identical to MaxOperationalCostConstraint. -/
def MaxContactGapConstraint.init (value : Option ℚ) :
    Except String Unit :=
  if pyFalsy value then .error ("Value must be provided.") else .ok ()

/-- C5 counterexample: constructing MaxOperationalCostConstraint or
MaxContactGapConstraint with the negative value -1 does not raise — the
if-not-value guard only fires on None or zero, so the claimed
construction-time error for non-positive values does not happen. -/
theorem negative_value_accepted_at_construction :
    MaxOperationalCostConstraint.init (some (-1)) = .ok ()
    ∧ MaxContactGapConstraint.init (some (-1)) = .ok () := by
  refine ⟨rfl, rfl⟩

/-- C5 amended: the windowed constraints and the duration constraint do
validate eagerly — any non-positive period, value, step or duration raises
at construction — while MaxOperationalCostConstraint and
MaxContactGapConstraint raise at construction exactly when the value is
omitted or zero, accepting negative values. -/
theorem construction_validation_amended :
    (∀ value period step : ℚ, (period ≤ 0 ∨ value ≤ 0 ∨ step ≤ 0) →
      isError (MinConstellationDataDownlinkConstraint.init value period step) = true)
    ∧ (∀ (value : ℤ) (period step : ℚ), (period ≤ 0 ∨ value ≤ 0 ∨ step ≤ 0) →
      isError (MaxContactsPerPeriodConstraint.init value period step) = true)
    ∧ (∀ d : ℚ, d ≤ 0 → isError (MinContactDurationConstraint.init d) = true)
    ∧ (∀ v : Option ℚ,
        isError (MaxOperationalCostConstraint.init v) = true ↔ (v = none ∨ v = some 0))
    ∧ (∀ v : Option ℚ,
        isError (MaxContactGapConstraint.init v) = true ↔ (v = none ∨ v = some 0)) := by
  refine ⟨?_, ?_, ?_, ?_, ?_⟩
  · intro value period step h
    unfold MinConstellationDataDownlinkConstraint.init
    split_ifs with h1 h2 h3
    · rfl
    · rfl
    · rfl
    · exfalso
      rcases h with h | h | h
      · exact h1 h
      · exact h2 h
      · exact h3 h
  · intro value period step h
    unfold MaxContactsPerPeriodConstraint.init
    split_ifs with h1 h2 h3
    · rfl
    · rfl
    · rfl
    · exfalso
      rcases h with h | h | h
      · exact h1 h
      · exact h2 h
      · exact h3 h
  · intro d h
    unfold MinContactDurationConstraint.init
    rw [if_pos h]
    rfl
  · intro v
    cases v with
    | none => simp [MaxOperationalCostConstraint.init, pyFalsy, isError]
    | some x =>
      simp only [MaxOperationalCostConstraint.init, pyFalsy]
      by_cases hx : x = 0
      · subst hx
        simp [isError]
      · simp [isError, hx, beq_iff_eq]
  · intro v
    cases v with
    | none => simp [MaxContactGapConstraint.init, pyFalsy, isError]
    | some x =>
      simp only [MaxContactGapConstraint.init, pyFalsy]
      by_cases hx : x = 0
      · subst hx
        simp [isError]
      · simp [isError, hx, beq_iff_eq]

/-- C5 amended witness: the amended statement applied at concrete inputs. -/
theorem construction_validation_amended_witness :
    (((-1 : ℚ) ≤ 0 ∨ (1 : ℚ) ≤ 0 ∨ (1 : ℚ) ≤ 0)
      ∧ isError (MinConstellationDataDownlinkConstraint.init 1 (-1) 1) = true)
    ∧ ((-300 : ℚ) ≤ 0 ∧ isError (MinContactDurationConstraint.init (-300)) = true)
    ∧ isError (MaxOperationalCostConstraint.init (some 0)) = true :=
  ⟨⟨Or.inl (by norm_num),
      construction_validation_amended.1 1 (-1) 1 (Or.inl (by norm_num))⟩,
    ⟨by norm_num, construction_validation_amended.2.2.1 (-300) (by norm_num)⟩,
    (construction_validation_amended.2.2.2.1 (some 0)).mpr (Or.inr rfl)⟩

/-! ## MinContactDurationConstraint generation (milp_constraints.py 443-451) -/

/-- MinContactDurationConstraint._generate_constraints: for every contact
whose duration is less than or equal to the configured minimum, emit the
constraint fixing that contact variable to 0; we record the constrained
contact ids. -/
def MinContactDurationConstraint.generate (min_duration : ℚ)
    (contact_nodes : List Contact) : List ℕ :=
  (contact_nodes.filter (fun c => decide (c.t_duration ≤ min_duration))).map
    (fun c => c.id)

/-- C10: the boundary is non-strict.  A contact with duration equal to (or
below) min_duration gets the var = 0 constraint, hence can never be
selected by any valuation satisfying the emitted constraints; a contact
strictly longer than min_duration gets no constraint. -/
theorem minContactDuration_nonstrict_boundary (min_duration : ℚ)
    (cs : List Contact) (hids : (cs.map Contact.id).Nodup)
    (c : Contact) (hc : c ∈ cs) :
    (c.t_duration ≤ min_duration →
      c.id ∈ MinContactDurationConstraint.generate min_duration cs
      ∧ ∀ v : ℕ → ℚ,
          (∀ i ∈ MinContactDurationConstraint.generate min_duration cs, v i = 0) →
          v c.id = 0)
    ∧ (min_duration < c.t_duration →
      c.id ∉ MinContactDurationConstraint.generate min_duration cs) := by
  constructor
  · intro hdur
    have hmem : c.id ∈ MinContactDurationConstraint.generate min_duration cs := by
      unfold MinContactDurationConstraint.generate
      exact List.mem_map_of_mem _ (List.mem_filter.mpr ⟨hc, by simpa using hdur⟩)
    exact ⟨hmem, fun v hv => hv c.id hmem⟩
  · intro hdur hmem
    unfold MinContactDurationConstraint.generate at hmem
    rcases List.mem_map.mp hmem with ⟨c2, hc2, hid⟩
    rcases List.mem_filter.mp hc2 with ⟨hc2cs, hc2dur⟩
    have : c2 = c := List.inj_on_of_nodup_map hids hc2cs hc hid
    subst this
    have : c2.t_duration ≤ min_duration := by simpa using hc2dur
    linarith

/-- C10 witness: a contact lasting exactly the minimum duration is
constrained to zero. -/
theorem minContactDuration_nonstrict_boundary_witness :
    (([(⟨1, 0, 0, 0, 300, 300, 0, 0, 0⟩ : Contact)].map Contact.id).Nodup)
    ∧ (1 : ℕ) ∈ MinContactDurationConstraint.generate 300
        [⟨1, 0, 0, 0, 300, 300, 0, 0, 0⟩] :=
  ⟨by decide,
    ((minContactDuration_nonstrict_boundary 300 [⟨1, 0, 0, 0, 300, 300, 0, 0, 0⟩]
      (by decide) ⟨1, 0, 0, 0, 300, 300, 0, 0, 0⟩ (by decide)).1 (by norm_num)).1⟩

/-! ## Combinatorial infrastructure: itertools.combinations, sorting, overlap -/

/-- itertools.combinations of size k: every k-element subsequence of the
input, first element chosen from the front first. -/
def combosN {α : Type} : ℕ → List α → List (List α)
  | 0, _ => [[]]
  | _ + 1, [] => []
  | k + 1, x :: xs => ((combosN k xs).map (fun c => x :: c)) ++ combosN (k + 1) xs

theorem mem_combosN {α : Type} : ∀ {k : ℕ} {l c : List α},
    c ∈ combosN k l ↔ c.Sublist l ∧ c.length = k := by
  intro k l
  induction l generalizing k with
  | nil =>
    intro c
    cases k with
    | zero =>
      simp only [combosN, List.mem_singleton]
      constructor
      · rintro rfl
        exact ⟨List.Sublist.refl _, rfl⟩
      · rintro ⟨hs, hl⟩
        exact List.length_eq_zero.mp hl
    | succ k =>
      simp only [combosN, List.not_mem_nil, false_iff, not_and]
      intro hs
      have := List.sublist_nil.mp hs
      subst this
      simp
  | cons x xs ih =>
    intro c
    cases k with
    | zero =>
      simp only [combosN, List.mem_singleton]
      constructor
      · rintro rfl
        exact ⟨List.nil_sublist _, rfl⟩
      · rintro ⟨hs, hl⟩
        exact List.length_eq_zero.mp hl
    | succ k =>
      simp only [combosN, List.mem_append, List.mem_map]
      constructor
      · rintro (⟨c2, hc2, rfl⟩ | hc)
        · rcases ih.mp hc2 with ⟨hs, hl⟩
          exact ⟨List.cons_sublist_cons.mpr hs, by simp [hl]⟩
        · rcases ih.mp hc with ⟨hs, hl⟩
          exact ⟨List.sublist_cons_of_sublist x hs, hl⟩
      · rintro ⟨hs, hl⟩
        rcases List.sublist_cons_iff.mp hs with h | ⟨r, rfl, hr⟩
        · exact Or.inr (ih.mpr ⟨h, hl⟩)
        · refine Or.inl ⟨r, ih.mpr ⟨hr, ?_⟩, rfl⟩
          simpa using hl

theorem pair_sublist_of_mem {α : Type} {a b : α} {l : List α}
    (ha : a ∈ l) (hb : b ∈ l) (hab : a ≠ b) :
    [a, b].Sublist l ∨ [b, a].Sublist l := by
  induction l with
  | nil => cases ha
  | cons x xs ih =>
    rcases List.mem_cons.mp ha with rfl | ha2
    · rcases List.mem_cons.mp hb with rfl | hb2
      · exact absurd rfl hab
      · exact Or.inl (List.cons_sublist_cons.mpr (List.singleton_sublist.mpr hb2))
    · rcases List.mem_cons.mp hb with rfl | hb2
      · exact Or.inr (List.cons_sublist_cons.mpr (List.singleton_sublist.mpr ha2))
      · exact (ih ha2 hb2).imp (List.sublist_cons_of_sublist x)
          (List.sublist_cons_of_sublist x)

/-- Closed-interval overlap test used by every pairwise check in
milp_constraints.py: x.t_start less-or-equal y.t_end and y.t_start
less-or-equal x.t_end. -/
def overlapB (a b : Contact) : Bool :=
  decide (a.t_start ≤ b.t_end) && decide (b.t_start ≤ a.t_end)

theorem overlapB_comm (a b : Contact) : overlapB a b = overlapB b a := by
  simp [overlapB, Bool.and_comm]

/-- sorted(contacts, key=lambda cn: cn.model.t_start): stable sort by
contact start time. -/
def sortByStart (cs : List Contact) : List Contact :=
  cs.insertionSort (fun a b => a.t_start ≤ b.t_start)

theorem mem_sortByStart {c : Contact} {cs : List Contact} :
    c ∈ sortByStart cs ↔ c ∈ cs :=
  (List.perm_insertionSort _ cs).mem_iff

/-- Distinct satellite ids of the contact list, as used for groupby. -/
def satelliteIds (cs : List Contact) : List ℕ :=
  (cs.map Contact.satellite).dedup

/-- Distinct station ids of the contact list, as used for groupby. -/
def stationIds (cs : List Contact) : List ℕ :=
  (cs.map Contact.station).dedup

/-- Contacts of the list with the given key value; this is what a groupby
over the key-sorted list yields for that key. -/
def groupOf (key : Contact → ℕ) (cs : List Contact) (s : ℕ) : List Contact :=
  cs.filter (fun c => key c == s)

/-! ## Pairwise contact exclusion (milp_constraints.py 282-344) -/

/-- Shared body of SatelliteContactExclusionConstraint and
StationContactExclusionConstraint generation (the two classes differ only
in the grouping key): group contacts by the key, sort each group by start
time, and for every 2-combination whose intervals pass the closed-interval
overlap test emit the constraint var_x + var_y at most 1, recorded as the
ordered id pair. -/
def exclusionPairs (key : Contact → ℕ) (keys : List ℕ) (cs : List Contact) :
    List (ℕ × ℕ) :=
  keys.flatMap (fun s =>
    (combosN 2 (sortByStart (groupOf key cs s))).filterMap
      (fun p =>
        match p with
        | [x, y] => if overlapB x y then some (x.id, y.id) else none
        | _ => none))

/-- SatelliteContactExclusionConstraint._generate_constraints. -/
def SatelliteContactExclusionConstraint.generate (cs : List Contact) :
    List (ℕ × ℕ) :=
  exclusionPairs Contact.satellite (satelliteIds cs) cs

/-- StationContactExclusionConstraint._generate_constraints. -/
def StationContactExclusionConstraint.generate (cs : List Contact) :
    List (ℕ × ℕ) :=
  exclusionPairs Contact.station (stationIds cs) cs

theorem mem_exclusionPairs_iff (key : Contact → ℕ) (cs : List Contact)
    (hids : (cs.map Contact.id).Nodup)
    {a b : Contact} (ha : a ∈ cs) (hb : b ∈ cs) (hab : a.id ≠ b.id)
    (hkey : key a = key b) :
    overlapB a b = true ↔
      ((a.id, b.id) ∈ exclusionPairs key ((cs.map key).dedup) cs
        ∨ (b.id, a.id) ∈ exclusionPairs key ((cs.map key).dedup) cs) := by
  have hane : a ≠ b := fun h => hab (congrArg Contact.id h)
  have hag : a ∈ sortByStart (groupOf key cs (key a)) :=
    mem_sortByStart.mpr (List.mem_filter.mpr ⟨ha, by simp⟩)
  have hbg : b ∈ sortByStart (groupOf key cs (key a)) :=
    mem_sortByStart.mpr (List.mem_filter.mpr ⟨hb, by simp [hkey]⟩)
  have hkeymem : key a ∈ (cs.map key).dedup :=
    List.mem_dedup.mpr (List.mem_map_of_mem key ha)
  constructor
  · intro hov
    rcases pair_sublist_of_mem hag hbg hane with hsub | hsub
    · refine Or.inl (List.mem_flatMap.mpr ⟨key a, hkeymem, ?_⟩)
      refine List.mem_filterMap.mpr ⟨[a, b], mem_combosN.mpr ⟨hsub, rfl⟩, ?_⟩
      simp [hov]
    · refine Or.inr (List.mem_flatMap.mpr ⟨key a, hkeymem, ?_⟩)
      refine List.mem_filterMap.mpr ⟨[b, a], mem_combosN.mpr ⟨hsub, rfl⟩, ?_⟩
      rw [overlapB_comm] at hov
      simp [hov]
  · intro hmem
    have inv : ∀ x y : Contact,
        (x.id, y.id) ∈ exclusionPairs key ((cs.map key).dedup) cs →
        x ∈ cs → y ∈ cs → overlapB x y = true := by
      intro x y hxy hx hy
      rcases List.mem_flatMap.mp hxy with ⟨s, _, hfm⟩
      rcases List.mem_filterMap.mp hfm with ⟨p, hp, hsome⟩
      rcases mem_combosN.mp hp with ⟨hsub, hlen⟩
      match p, hlen with
      | [u, v], _ =>
        have husort : u ∈ sortByStart (groupOf key cs s) := hsub.subset (by simp)
        have hvsort : v ∈ sortByStart (groupOf key cs s) := hsub.subset (by simp)
        have hu : u ∈ cs := (List.mem_filter.mp (mem_sortByStart.mp husort)).1
        have hv : v ∈ cs := (List.mem_filter.mp (mem_sortByStart.mp hvsort)).1
        simp only at hsome
        split at hsome
        · injection hsome with hids2
          have hxu : u = x := List.inj_on_of_nodup_map hids hu hx (by
            have := congrArg Prod.fst hids2
            simpa using this)
          have hyv : v = y := List.inj_on_of_nodup_map hids hv hy (by
            have := congrArg Prod.snd hids2
            simpa using this)
          subst hxu
          subst hyv
          assumption
        · cases hsome
    rcases hmem with hmem | hmem
    · exact inv a b hmem ha hb
    · rw [overlapB_comm]
      exact inv b a hmem hb ha

/-- C7: for contacts sharing a satellite (or a station), a pairwise
constraint var_a + var_b at most 1 is emitted exactly when the
closed-interval overlap test holds — contacts touching at an endpoint
included — so any valuation satisfying the emitted constraints selects at
most one of an overlapping pair, and non-overlapping pairs get no
constraint. -/
theorem contact_exclusion_pairs_characterization (cs : List Contact)
    (hids : (cs.map Contact.id).Nodup)
    (a : Contact) (ha : a ∈ cs) (b : Contact) (hb : b ∈ cs)
    (hab : a.id ≠ b.id) :
    (a.satellite = b.satellite →
      (overlapB a b = true ↔
        ((a.id, b.id) ∈ SatelliteContactExclusionConstraint.generate cs
          ∨ (b.id, a.id) ∈ SatelliteContactExclusionConstraint.generate cs)))
    ∧ (a.station = b.station →
      (overlapB a b = true ↔
        ((a.id, b.id) ∈ StationContactExclusionConstraint.generate cs
          ∨ (b.id, a.id) ∈ StationContactExclusionConstraint.generate cs)))
    ∧ (∀ v : ℕ → Bool,
        (∀ p ∈ SatelliteContactExclusionConstraint.generate cs,
          (if v p.1 then (1 : ℕ) else 0) + (if v p.2 then 1 else 0) ≤ 1) →
        a.satellite = b.satellite → overlapB a b = true →
        ¬(v a.id = true ∧ v b.id = true))
    ∧ (∀ v : ℕ → Bool,
        (∀ p ∈ StationContactExclusionConstraint.generate cs,
          (if v p.1 then (1 : ℕ) else 0) + (if v p.2 then 1 else 0) ≤ 1) →
        a.station = b.station → overlapB a b = true →
        ¬(v a.id = true ∧ v b.id = true)) := by
  have hsat := fun hkey => mem_exclusionPairs_iff Contact.satellite cs hids ha hb hab hkey
  have hsta := fun hkey => mem_exclusionPairs_iff Contact.station cs hids ha hb hab hkey
  refine ⟨hsat, hsta, ?_, ?_⟩
  · intro v hv hkey hov ⟨hva, hvb⟩
    rcases (hsat hkey).mp hov with hmem | hmem
    · have := hv _ hmem
      simp [hva, hvb] at this
    · have := hv _ hmem
      simp [hva, hvb] at this
  · intro v hv hkey hov ⟨hva, hvb⟩
    rcases (hsta hkey).mp hov with hmem | hmem
    · have := hv _ hmem
      simp [hva, hvb] at this
    · have := hv _ hmem
      simp [hva, hvb] at this

/-- C7 witness: two contacts of one satellite at two stations, both
spanning 0 to 300, get an exclusion constraint. -/
theorem contact_exclusion_pairs_witness :
    ((([⟨1, 10, 5, 0, 300, 300, 0, 0, 0⟩, ⟨2, 11, 5, 0, 300, 300, 0, 0, 0⟩] :
        List Contact).map Contact.id).Nodup)
    ∧ ((1, 2) ∈ SatelliteContactExclusionConstraint.generate
          [⟨1, 10, 5, 0, 300, 300, 0, 0, 0⟩, ⟨2, 11, 5, 0, 300, 300, 0, 0, 0⟩]
        ∨ (2, 1) ∈ SatelliteContactExclusionConstraint.generate
          [⟨1, 10, 5, 0, 300, 300, 0, 0, 0⟩, ⟨2, 11, 5, 0, 300, 300, 0, 0, 0⟩]) :=
  ⟨by decide,
    ((contact_exclusion_pairs_characterization
        [⟨1, 10, 5, 0, 300, 300, 0, 0, 0⟩, ⟨2, 11, 5, 0, 300, 300, 0, 0, 0⟩]
        (by decide) ⟨1, 10, 5, 0, 300, 300, 0, 0, 0⟩ (by decide)
        ⟨2, 11, 5, 0, 300, 300, 0, 0, 0⟩ (by decide) (by decide)).1 rfl).mp
      (by decide)⟩

/-! ## MaxAntennaUsageConstraint (milp_constraints.py 239-279) -/

theorem eq_of_map_id_eq {cs : List Contact} (hids : (cs.map Contact.id).Nodup) :
    ∀ {l1 l2 : List Contact}, (∀ x ∈ l1, x ∈ cs) → (∀ x ∈ l2, x ∈ cs) →
    l1.map Contact.id = l2.map Contact.id → l1 = l2 := by
  intro l1
  induction l1 with
  | nil =>
    intro l2 _ _ hmap
    cases l2 with
    | nil => rfl
    | cons y ys => simp at hmap
  | cons x xs ih =>
    intro l2 h1 h2 hmap
    cases l2 with
    | nil => simp at hmap
    | cons y ys =>
      simp only [List.map_cons, List.cons.injEq] at hmap
      have hxy : x = y :=
        List.inj_on_of_nodup_map hids (h1 x (by simp)) (h2 y (by simp)) hmap.1
      have htail := ih (fun z hz => h1 z (by simp [hz]))
        (fun z hz => h2 z (by simp [hz])) hmap.2
      rw [hxy, htail]

/-- Mutual pairwise overlap of a combination, exactly the all(...) check of
MaxAntennaUsageConstraint over combinations(contacts, 2). -/
def mutualOverlapB (combo : List Contact) : Bool :=
  (combosN 2 combo).all (fun p =>
    match p with
    | [x, y] => overlapB x y
    | _ => true)

/-- MaxAntennaUsageConstraint._generate_constraints: per station group,
with antennas the station capacity, enumerate all combinations of
antennas + 1 contacts sorted by start time; for each combination whose
members pairwise overlap, emit sum of the combination variables at most
antennas, recorded as the id list and the bound. -/
def MaxAntennaUsageConstraint.generate (antennas : ℕ → ℕ) (cs : List Contact) :
    List (List ℕ × ℕ) :=
  (stationIds cs).flatMap (fun s =>
    (combosN (antennas s + 1) (sortByStart (groupOf Contact.station cs s))).filterMap
      (fun combo =>
        if mutualOverlapB combo then some (combo.map Contact.id, antennas s)
        else none))

/-- C8: the emitted antenna constraints are exactly the (antennas+1)-sized
combinations of a station group whose members mutually overlap, bounded by
the station capacity — and any valuation satisfying them selects at most
antennas contacts from every such mutually-overlapping combination. -/
theorem antenna_combination_constraints (antennas : ℕ → ℕ) (cs : List Contact)
    (hids : (cs.map Contact.id).Nodup) :
    (∀ s ∈ stationIds cs, ∀ combo : List Contact,
        combo.Sublist (sortByStart (groupOf Contact.station cs s)) →
        combo.length = antennas s + 1 →
        (mutualOverlapB combo = true ↔
          (combo.map Contact.id, antennas s) ∈
            MaxAntennaUsageConstraint.generate antennas cs))
    ∧ (∀ e ∈ MaxAntennaUsageConstraint.generate antennas cs,
        ∃ s ∈ stationIds cs, ∃ combo : List Contact,
          combo.Sublist (sortByStart (groupOf Contact.station cs s))
          ∧ combo.length = antennas s + 1 ∧ mutualOverlapB combo = true
          ∧ e = (combo.map Contact.id, antennas s))
    ∧ (∀ v : ℕ → Bool,
        (∀ e ∈ MaxAntennaUsageConstraint.generate antennas cs,
          ((e.1).map (fun i => if v i then (1 : ℕ) else 0)).sum ≤ e.2) →
        ∀ s ∈ stationIds cs, ∀ combo : List Contact,
          combo.Sublist (sortByStart (groupOf Contact.station cs s)) →
          combo.length = antennas s + 1 → mutualOverlapB combo = true →
          ((combo.map Contact.id).map (fun i => if v i then (1 : ℕ) else 0)).sum ≤
            antennas s) := by
  have hmemOfCombo : ∀ s, ∀ combo : List Contact,
      combo.Sublist (sortByStart (groupOf Contact.station cs s)) →
      ∀ x ∈ combo, x ∈ cs := by
    intro s combo hsub x hx
    exact (List.mem_filter.mp (mem_sortByStart.mp (hsub.subset hx))).1
  have hfwd : ∀ s ∈ stationIds cs, ∀ combo : List Contact,
      combo.Sublist (sortByStart (groupOf Contact.station cs s)) →
      combo.length = antennas s + 1 → mutualOverlapB combo = true →
      (combo.map Contact.id, antennas s) ∈
        MaxAntennaUsageConstraint.generate antennas cs := by
    intro s hs combo hsub hlen hmut
    refine List.mem_flatMap.mpr ⟨s, hs, ?_⟩
    refine List.mem_filterMap.mpr ⟨combo, mem_combosN.mpr ⟨hsub, hlen⟩, ?_⟩
    simp [hmut]
  have hinv : ∀ e ∈ MaxAntennaUsageConstraint.generate antennas cs,
      ∃ s ∈ stationIds cs, ∃ combo : List Contact,
        combo.Sublist (sortByStart (groupOf Contact.station cs s))
        ∧ combo.length = antennas s + 1 ∧ mutualOverlapB combo = true
        ∧ e = (combo.map Contact.id, antennas s) := by
    intro e he
    rcases List.mem_flatMap.mp he with ⟨s, hs, hfm⟩
    rcases List.mem_filterMap.mp hfm with ⟨combo, hcombo, hsome⟩
    rcases mem_combosN.mp hcombo with ⟨hsub, hlen⟩
    by_cases hmut : mutualOverlapB combo = true
    · refine ⟨s, hs, combo, hsub, hlen, hmut, ?_⟩
      rw [if_pos hmut] at hsome
      exact (Option.some.injEq .. ▸ hsome :).symm
    · rw [if_neg hmut] at hsome
      cases hsome
  refine ⟨?_, hinv, ?_⟩
  · intro s hs combo hsub hlen
    constructor
    · exact hfwd s hs combo hsub hlen
    · intro hmem
      rcases hinv _ hmem with ⟨s2, _, combo2, hsub2, _, hmut2, heq⟩
      have hmap : combo2.map Contact.id = combo.map Contact.id := by
        have := congrArg Prod.fst heq
        simpa using this.symm
      have : combo2 = combo :=
        eq_of_map_id_eq hids (hmemOfCombo s2 combo2 hsub2)
          (hmemOfCombo s combo hsub) hmap
      rwa [this] at hmut2
  · intro v hv s hs combo hsub hlen hmut
    have := hv _ (hfwd s hs combo hsub hlen hmut)
    simpa using this

/-- C8 witness: a station with one antenna and a 2-combination of
overlapping contacts yields the bound constraint. -/
theorem antenna_combination_constraints_witness :
    ((([⟨1, 0, 5, 0, 300, 300, 0, 0, 0⟩, ⟨2, 0, 5, 100, 400, 300, 0, 0, 0⟩] :
        List Contact).map Contact.id).Nodup)
    ∧ ([1, 2], 1) ∈ MaxAntennaUsageConstraint.generate (fun _ => 1)
        [⟨1, 0, 5, 0, 300, 300, 0, 0, 0⟩, ⟨2, 0, 5, 100, 400, 300, 0, 0, 0⟩] :=
  ⟨by decide,
    ((antenna_combination_constraints (fun _ => 1)
        [⟨1, 0, 5, 0, 300, 300, 0, 0, 0⟩, ⟨2, 0, 5, 100, 400, 300, 0, 0, 0⟩]
        (by decide)).1 0 (by decide)
        [⟨1, 0, 5, 0, 300, 300, 0, 0, 0⟩, ⟨2, 0, 5, 100, 400, 300, 0, 0, 0⟩]
        (by decide) (by decide)).mp (by decide)⟩

/-! ## Linearized max-gap encoding (milp_constraints.py 347-403 and
milp_objectives.py 109-174) -/

/-- Variables of the max-gap encoding: the contact selection variables,
the auxiliary successor variables keyed by (satellite id, contact i id,
contact j id), and the shared max_gap variable of the objective form. -/
inductive GapVar
| x (id : ℕ)
| aux (sat i j : ℕ)
| maxGap
deriving DecidableEq

/-- Linear constraints emitted by the two max-gap generators. -/
inductive GapConstr
| le (a b : GapVar)
| coeffLeConst (coeff : ℚ) (a : GapVar) (bound : ℚ)
| coeffLeVar (coeff : ℚ) (a : GapVar) (b : GapVar)
| sumEq (xs : List GapVar) (y : GapVar)
deriving DecidableEq

/-- Satisfaction of one emitted gap constraint by a valuation. -/
def satGap (v : GapVar → ℚ) : GapConstr → Prop
  | .le a b => v a ≤ v b
  | .coeffLeConst c a bound => c * v a ≤ bound
  | .coeffLeVar c a b => c * v a ≤ v b
  | .sumEq xs y => (xs.map v).sum = v y

/-- filter(lambda cn: cn.model.t_start > cn_i.model.t_end, sat_contacts):
the potential successors of contact ci among the satellite group. -/
def gapSuccessors (sc : List Contact) (ci : Contact) : List Contact :=
  sc.filter (fun c => decide (ci.t_end < c.t_start))

/-- Constraints emitted for one non-final contact ci of satellite sat by
MaxContactGapConstraint._generate_constraints: per successor cj, aux at
most x_i, aux at most x_j, gap times aux at most the fixed value; then the
sum of the auxiliaries equals x_i. -/
def gapRowsConstraint (value : ℚ) (sat : ℕ) (sc : List Contact)
    (ci : Contact) : List GapConstr :=
  ((gapSuccessors sc ci).flatMap (fun cj =>
    [GapConstr.le (.aux sat ci.id cj.id) (.x ci.id),
     GapConstr.le (.aux sat ci.id cj.id) (.x cj.id),
     GapConstr.coeffLeConst (cj.t_start - ci.t_end) (.aux sat ci.id cj.id) value]))
  ++ [GapConstr.sumEq
        ((gapSuccessors sc ci).map (fun cj => GapVar.aux sat ci.id cj.id))
        (.x ci.id)]

/-- MaxContactGapConstraint._generate_constraints: per satellite group
sorted by start time, emit the rows for every contact except the last. -/
def MaxContactGapConstraint.generate (value : ℚ) (cs : List Contact) :
    List GapConstr :=
  (satelliteIds cs).flatMap (fun sat =>
    ((sortByStart (groupOf Contact.satellite cs sat)).take
        ((sortByStart (groupOf Contact.satellite cs sat)).length - 1)).flatMap
      (gapRowsConstraint value sat (sortByStart (groupOf Contact.satellite cs sat))))

/-- Constraints emitted for one non-final contact ci of satellite sat by
MinMaxContactGapObjective._generate_objective: identical rows except that
the gap bound is the shared max_gap variable being minimized. -/
def gapRowsObjective (sat : ℕ) (sc : List Contact) (ci : Contact) :
    List GapConstr :=
  ((gapSuccessors sc ci).flatMap (fun cj =>
    [GapConstr.le (.aux sat ci.id cj.id) (.x ci.id),
     GapConstr.le (.aux sat ci.id cj.id) (.x cj.id),
     GapConstr.coeffLeVar (cj.t_start - ci.t_end) (.aux sat ci.id cj.id) .maxGap]))
  ++ [GapConstr.sumEq
        ((gapSuccessors sc ci).map (fun cj => GapVar.aux sat ci.id cj.id))
        (.x ci.id)]

/-- Auxiliary constraints of MinMaxContactGapObjective._generate_objective. -/
def MinMaxContactGapObjective.generate (cs : List Contact) : List GapConstr :=
  (satelliteIds cs).flatMap (fun sat =>
    ((sortByStart (groupOf Contact.satellite cs sat)).take
        ((sortByStart (groupOf Contact.satellite cs sat)).length - 1)).flatMap
      (gapRowsObjective sat (sortByStart (groupOf Contact.satellite cs sat))))

/-- C4: in both max-gap forms, every contact of a satellite except the
chronologically last (by start-time sort) gets the equality constraint
sum of its successor auxiliaries equals its own variable, where the
successors are the satellite contacts starting strictly after it ends;
when there is no such successor the sum is empty and the degenerate
constraint 0 == var forces the contact to be unselected in every
satisfying valuation. -/
theorem maxgap_successor_sum_constraint (value : ℚ) (cs : List Contact)
    (sat : ℕ) (hsat : sat ∈ satelliteIds cs) (ci : Contact)
    (hci : ci ∈ (sortByStart (groupOf Contact.satellite cs sat)).take
        ((sortByStart (groupOf Contact.satellite cs sat)).length - 1)) :
    (GapConstr.sumEq
        ((gapSuccessors (sortByStart (groupOf Contact.satellite cs sat)) ci).map
          (fun cj => GapVar.aux sat ci.id cj.id)) (.x ci.id) ∈
      MaxContactGapConstraint.generate value cs)
    ∧ (GapConstr.sumEq
        ((gapSuccessors (sortByStart (groupOf Contact.satellite cs sat)) ci).map
          (fun cj => GapVar.aux sat ci.id cj.id)) (.x ci.id) ∈
      MinMaxContactGapObjective.generate cs)
    ∧ (gapSuccessors (sortByStart (groupOf Contact.satellite cs sat)) ci = [] →
        (∀ v : GapVar → ℚ,
          (∀ c ∈ MaxContactGapConstraint.generate value cs, satGap v c) →
          v (.x ci.id) = 0)
        ∧ (∀ v : GapVar → ℚ,
          (∀ c ∈ MinMaxContactGapObjective.generate cs, satGap v c) →
          v (.x ci.id) = 0)) := by
  have hmem1 : GapConstr.sumEq
      ((gapSuccessors (sortByStart (groupOf Contact.satellite cs sat)) ci).map
        (fun cj => GapVar.aux sat ci.id cj.id)) (.x ci.id) ∈
      MaxContactGapConstraint.generate value cs := by
    refine List.mem_flatMap.mpr ⟨sat, hsat, ?_⟩
    refine List.mem_flatMap.mpr ⟨ci, hci, ?_⟩
    unfold gapRowsConstraint
    exact List.mem_append_right _ (by simp)
  have hmem2 : GapConstr.sumEq
      ((gapSuccessors (sortByStart (groupOf Contact.satellite cs sat)) ci).map
        (fun cj => GapVar.aux sat ci.id cj.id)) (.x ci.id) ∈
      MinMaxContactGapObjective.generate cs := by
    refine List.mem_flatMap.mpr ⟨sat, hsat, ?_⟩
    refine List.mem_flatMap.mpr ⟨ci, hci, ?_⟩
    unfold gapRowsObjective
    exact List.mem_append_right _ (by simp)
  refine ⟨hmem1, hmem2, ?_⟩
  intro hempty
  constructor
  · intro v hv
    have := hv _ hmem1
    rw [hempty] at this
    simpa [satGap] using this.symm
  · intro v hv
    have := hv _ hmem2
    rw [hempty] at this
    simpa [satGap] using this.symm

/-- C4 witness: a satellite with two separated contacts; the first gets
the successor-sum equality with the single valid successor. -/
theorem maxgap_successor_sum_constraint_witness :
    (5 ∈ satelliteIds
      [⟨1, 0, 5, 0, 100, 100, 0, 0, 0⟩, ⟨2, 0, 5, 200, 300, 100, 0, 0, 0⟩])
    ∧ GapConstr.sumEq [GapVar.aux 5 1 2] (.x 1) ∈
        MaxContactGapConstraint.generate 1000
          [⟨1, 0, 5, 0, 100, 100, 0, 0, 0⟩, ⟨2, 0, 5, 200, 300, 100, 0, 0, 0⟩] :=
  ⟨by decide,
    (maxgap_successor_sum_constraint 1000
      [⟨1, 0, 5, 0, 100, 100, 0, 0, 0⟩, ⟨2, 0, 5, 200, 300, 100, 0, 0, 0⟩]
      5 (by decide) ⟨1, 0, 5, 0, 100, 100, 0, 0, 0⟩ (by decide)).1⟩

/-! ## Variable-linking constraints (milp_optimizer.py 235-289) -/

/-- Decision variables of the linking pass. -/
inductive LinkVar
| contact (id : ℕ)
| station (id : ℕ)
| provider (id : ℕ)
| indicator (st sat : ℕ)
deriving DecidableEq

/-- Linear constraints emitted by the linking pass: a sum bounded above by
a capacity times a variable, or a sum bounded below by a variable. -/
inductive LinkConstr
| sumLeMul (xs : List LinkVar) (n : ℕ) (y : LinkVar)
| sumGeVar (xs : List LinkVar) (y : LinkVar)
deriving DecidableEq

/-- Numeric value of a boolean variable assignment. -/
def bval (v : LinkVar → Bool) (x : LinkVar) : ℕ := if v x then 1 else 0

/-- Satisfaction of one linking constraint by a binary assignment. -/
def satLink (v : LinkVar → Bool) : LinkConstr → Prop
  | .sumLeMul xs n y => (xs.map (bval v)).sum ≤ n * bval v y
  | .sumGeVar xs y => bval v y ≤ (xs.map (bval v)).sum

instance satLink.instDecidable (v : LinkVar → Bool) :
    ∀ c : LinkConstr, Decidable (satLink v c)
  | .sumLeMul xs n y =>
      inferInstanceAs (Decidable ((xs.map (bval v)).sum ≤ n * bval v y))
  | .sumGeVar xs y =>
      inferInstanceAs (Decidable (bval v y ≤ (xs.map (bval v)).sum))

/-- Provider ids of the registered stations, as grouped by the provider
pass of _generate_variable_constraints. -/
def providerIds (stations : List Station) : List ℕ :=
  (stations.map Station.provider).dedup

/-- MilpOptimizer._generate_variable_constraints: per station group of the
contacts, emit the pair of station link inequalities (sum of contact vars
at most N times station var, and at least station var), then per satellite
sub-group the indicator inequality; finally, per provider over all
registered stations, the provider inequality. -/
def MilpOptimizer.generateVariableConstraints (stations : List Station)
    (cs : List Contact) : List LinkConstr :=
  ((stationIds cs).flatMap (fun s =>
    [LinkConstr.sumLeMul ((groupOf Contact.station cs s).map
        (fun c => LinkVar.contact c.id))
        (groupOf Contact.station cs s).length (.station s),
     LinkConstr.sumGeVar ((groupOf Contact.station cs s).map
        (fun c => LinkVar.contact c.id)) (.station s)]
    ++ (satelliteIds (groupOf Contact.station cs s)).map (fun sat =>
        LinkConstr.sumLeMul
          ((groupOf Contact.satellite (groupOf Contact.station cs s) sat).map
            (fun c => LinkVar.contact c.id))
          (groupOf Contact.satellite (groupOf Contact.station cs s) sat).length
          (.indicator s sat))))
  ++ (providerIds stations).map (fun p =>
      LinkConstr.sumLeMul
        ((stations.filter (fun st => st.provider == p)).map
          (fun st => LinkVar.station st.id))
        (stations.filter (fun st => st.provider == p)).length (.provider p))

/-- Assignment selecting one station and its provider with no contacts. -/
def unusedStationAssign (x : LinkVar) : Bool :=
  match x with
  | .station 0 => true
  | .provider 0 => true
  | _ => false

/-- C6 counterexample: a registered station with zero contacts receives no
station-contact linking constraints at all (the station pass iterates
station ids of the contact list), so the assignment selecting that station
and its provider satisfies every generated constraint even though none of
the station contact variables is 1 — the claimed backward direction of the
station link fails. -/
theorem linking_unused_station_feasible :
    (∀ c ∈ MilpOptimizer.generateVariableConstraints [⟨0, 0, 1⟩] [],
      satLink unusedStationAssign c)
    ∧ unusedStationAssign (.station 0) = true
    ∧ ¬∃ c ∈ ([] : List Contact), c.station = 0
        ∧ unusedStationAssign (.contact c.id) = true := by
  refine ⟨by decide, rfl, by simp⟩

theorem one_le_mapped_sum {α : Type} (v : LinkVar → Bool) (f : α → LinkVar)
    {l : List α} {x : α} (hx : x ∈ l) (hv : v (f x) = true) :
    1 ≤ ((l.map f).map (bval v)).sum := by
  have hmem : bval v (f x) ∈ (l.map f).map (bval v) :=
    List.mem_map_of_mem _ (List.mem_map_of_mem f hx)
  have := List.single_le_sum (l := (l.map f).map (bval v))
    (fun _ _ => Nat.zero_le _) _ hmem
  rwa [show bval v (f x) = 1 by simp [bval, hv]] at this

theorem var_true_of_le_mul (v : LinkVar → Bool) {xs : List LinkVar} {n : ℕ}
    {y : LinkVar} (hcon : (xs.map (bval v)).sum ≤ n * bval v y)
    (hsum : 1 ≤ (xs.map (bval v)).sum) : v y = true := by
  cases hy : v y with
  | true => rfl
  | false =>
    rw [show bval v y = 0 by simp [bval, hy]] at hcon
    omega

theorem exists_true_of_one_le_sum {α : Type} (v : LinkVar → Bool)
    (f : α → LinkVar) {l : List α}
    (h : 1 ≤ ((l.map f).map (bval v)).sum) : ∃ x ∈ l, v (f x) = true := by
  by_contra hno
  push_neg at hno
  have hzero : ((l.map f).map (bval v)).sum = 0 := by
    apply List.sum_eq_zero
    intro b hb
    rcases List.mem_map.mp hb with ⟨lv, hlv, rfl⟩
    rcases List.mem_map.mp hlv with ⟨x, hx, rfl⟩
    simp [bval, hno x hx]
  omega

/-- C6 amended: for every assignment satisfying the generated linking
constraints, a selected contact forces its station variable, its
station-satellite indicator and (via its registered station) its provider
variable to 1; and for every station having at least one contact in the
model, a selected station variable forces at least one of its contact
variables to 1.  Stations with no contacts receive no linking constraints
and escape the backward direction. -/
theorem linking_soundness_amended (stations : List Station)
    (cs : List Contact) (v : LinkVar → Bool)
    (hv : ∀ c ∈ MilpOptimizer.generateVariableConstraints stations cs,
      satLink v c) :
    (∀ c ∈ cs, v (.contact c.id) = true →
      v (.station c.station) = true
      ∧ v (.indicator c.station c.satellite) = true
      ∧ ∀ st ∈ stations, st.id = c.station → v (.provider st.provider) = true)
    ∧ (∀ s : ℕ, (∃ c ∈ cs, c.station = s) → v (.station s) = true →
        ∃ c ∈ cs, c.station = s ∧ v (.contact c.id) = true) := by
  constructor
  · intro c hc hvc
    have hs : c.station ∈ stationIds cs :=
      List.mem_dedup.mpr (List.mem_map_of_mem Contact.station hc)
    have hcg : c ∈ groupOf Contact.station cs c.station :=
      List.mem_filter.mpr ⟨hc, by simp⟩
    have hstaCon : satLink v (LinkConstr.sumLeMul
        ((groupOf Contact.station cs c.station).map (fun x => LinkVar.contact x.id))
        (groupOf Contact.station cs c.station).length (.station c.station)) := by
      apply hv
      refine List.mem_append_left _ (List.mem_flatMap.mpr ⟨c.station, hs, ?_⟩)
      exact List.mem_append_left _ (by simp)
    have hstation : v (.station c.station) = true := by
      have hsum := one_le_mapped_sum v (fun x : Contact => LinkVar.contact x.id)
        hcg hvc
      exact var_true_of_le_mul v hstaCon hsum
    have hsatg : c.satellite ∈ satelliteIds (groupOf Contact.station cs c.station) :=
      List.mem_dedup.mpr (List.mem_map_of_mem Contact.satellite hcg)
    have hcgs : c ∈ groupOf Contact.satellite
        (groupOf Contact.station cs c.station) c.satellite :=
      List.mem_filter.mpr ⟨hcg, by simp⟩
    have hindCon : satLink v (LinkConstr.sumLeMul
        ((groupOf Contact.satellite (groupOf Contact.station cs c.station)
            c.satellite).map (fun x => LinkVar.contact x.id))
        (groupOf Contact.satellite (groupOf Contact.station cs c.station)
            c.satellite).length (.indicator c.station c.satellite)) := by
      apply hv
      refine List.mem_append_left _ (List.mem_flatMap.mpr ⟨c.station, hs, ?_⟩)
      refine List.mem_append_right _ ?_
      exact List.mem_map.mpr ⟨c.satellite, hsatg, rfl⟩
    have hindicator : v (.indicator c.station c.satellite) = true := by
      have hsum := one_le_mapped_sum v (fun x : Contact => LinkVar.contact x.id)
        hcgs hvc
      exact var_true_of_le_mul v hindCon hsum
    refine ⟨hstation, hindicator, ?_⟩
    intro st hst hstid
    have hp : st.provider ∈ providerIds stations :=
      List.mem_dedup.mpr (List.mem_map_of_mem Station.provider hst)
    have hstf : st ∈ stations.filter (fun x => x.provider == st.provider) :=
      List.mem_filter.mpr ⟨hst, by simp⟩
    have hproCon : satLink v (LinkConstr.sumLeMul
        ((stations.filter (fun x => x.provider == st.provider)).map
          (fun x => LinkVar.station x.id))
        (stations.filter (fun x => x.provider == st.provider)).length
        (.provider st.provider)) := by
      apply hv
      refine List.mem_append_right _ ?_
      exact List.mem_map.mpr ⟨st.provider, hp, rfl⟩
    have hvst : v (.station st.id) = true := by
      rw [hstid]
      exact hstation
    have hsum := one_le_mapped_sum v (fun x : Station => LinkVar.station x.id)
      hstf hvst
    exact var_true_of_le_mul v hproCon hsum
  · intro s hex hvs
    rcases hex with ⟨c, hc, hcs⟩
    have hs : s ∈ stationIds cs := by
      rw [← hcs]
      exact List.mem_dedup.mpr (List.mem_map_of_mem Contact.station hc)
    have hgeCon : satLink v (LinkConstr.sumGeVar
        ((groupOf Contact.station cs s).map (fun x => LinkVar.contact x.id))
        (.station s)) := by
      apply hv
      refine List.mem_append_left _ (List.mem_flatMap.mpr ⟨s, hs, ?_⟩)
      exact List.mem_append_left _ (by simp)
    have hsum : 1 ≤ (((groupOf Contact.station cs s).map
        (fun x => LinkVar.contact x.id)).map (bval v)).sum := by
      have : bval v (.station s) = 1 := by simp [bval, hvs]
      have hle := hgeCon
      simp only [satLink] at hle
      omega
    rcases exists_true_of_one_le_sum v (fun x : Contact => LinkVar.contact x.id)
      hsum with ⟨c2, hc2, hvc2⟩
    rcases List.mem_filter.mp hc2 with ⟨hc2cs, hc2s⟩
    exact ⟨c2, hc2cs, by simpa using hc2s, hvc2⟩

/-- Assignment selecting a single contact with everything it implies. -/
def chainAssign (x : LinkVar) : Bool :=
  match x with
  | .contact 1 => true
  | .station 0 => true
  | .provider 7 => true
  | .indicator 0 5 => true
  | _ => false

/-- C6 amended witness: one contact at station 0 of provider 7 with
satellite 5; the satisfying assignment selecting the contact has station,
indicator and provider variables at 1, and the station link recovers a
selected contact. -/
theorem linking_soundness_amended_witness :
    (∀ c ∈ MilpOptimizer.generateVariableConstraints [⟨0, 7, 1⟩]
        [⟨1, 0, 5, 0, 100, 100, 0, 0, 0⟩], satLink chainAssign c)
    ∧ chainAssign (.station 0) = true
    ∧ chainAssign (.indicator 0 5) = true
    ∧ chainAssign (.provider 7) = true :=
  ⟨by decide,
    (((linking_soundness_amended [⟨0, 7, 1⟩] [⟨1, 0, 5, 0, 100, 100, 0, 0, 0⟩]
        chainAssign (by decide)).1 ⟨1, 0, 5, 0, 100, 100, 0, 0, 0⟩
        (by decide) rfl).1),
    (((linking_soundness_amended [⟨0, 7, 1⟩] [⟨1, 0, 5, 0, 100, 100, 0, 0, 0⟩]
        chainAssign (by decide)).1 ⟨1, 0, 5, 0, 100, 100, 0, 0, 0⟩
        (by decide) rfl).2.1),
    (((linking_soundness_amended [⟨0, 7, 1⟩] [⟨1, 0, 5, 0, 100, 100, 0, 0, 0⟩]
        chainAssign (by decide)).1 ⟨1, 0, 5, 0, 100, 100, 0, 0, 0⟩
        (by decide) rfl).2.2 ⟨0, 7, 1⟩ (by decide) rfl)⟩

/-! ## Sliding-window constraints (milp_constraints.py 43-96 and 454-508) -/

/-- Step parameter of a windowed constraint; the constructors reject
non-positive steps, and positivity is what makes the while loop finish. -/
abbrev PosStep := {q : ℚ // 0 < q}

/-- Number of loop iterations left from working time ts; used as the
termination measure of the embedded while loops. -/
def winMeasure (simEnd period : ℚ) (step : PosStep) (ts : ℚ) : ℕ :=
  (⌈(simEnd - period - ts) / step.val⌉ + 1).toNat

theorem winMeasure_decreases {simEnd period : ℚ} {step : PosStep} {ts : ℚ}
    (h : ts + period ≤ simEnd) :
    winMeasure simEnd period step (ts + step.val) <
      winMeasure simEnd period step ts := by
  unfold winMeasure
  have hX : (0 : ℚ) ≤ (simEnd - period - ts) / step.val := by
    apply div_nonneg
    · linarith
    · exact le_of_lt step.property
  have hceil : (0 : ℤ) ≤ ⌈(simEnd - period - ts) / step.val⌉ := Int.ceil_nonneg hX
  have heq : (simEnd - period - (ts + step.val)) / step.val =
      (simEnd - period - ts) / step.val - 1 := by
    rw [show simEnd - period - (ts + step.val) = (simEnd - period - ts) - step.val
        by ring, sub_div, div_self (ne_of_gt step.property)]
  rw [heq]
  have h2 : ⌈(simEnd - period - ts) / step.val - 1⌉ =
      ⌈(simEnd - period - ts) / step.val⌉ - 1 := by
    have h3 := Int.ceil_sub_int ((simEnd - period - ts) / step.val) 1
    exact_mod_cast h3
  rw [h2]
  omega

/-- The sequence of window start times produced by the while loop pattern
ts from sim_start, te = ts + period, iterate while te at most sim_end,
advancing both by step. -/
def windowStarts (simEnd period : ℚ) (step : PosStep) (ts : ℚ) : List ℚ :=
  if h : ts + period ≤ simEnd then
    ts :: windowStarts simEnd period step (ts + step.val)
  else []
termination_by winMeasure simEnd period step ts
decreasing_by exact winMeasure_decreases h

theorem mem_windowStarts (simEnd period : ℚ) (step : PosStep) :
    ∀ ts x, x ∈ windowStarts simEnd period step ts →
      ∃ k : ℕ, x = ts + k * step.val ∧ x + period ≤ simEnd := by
  suffices H : ∀ n ts, winMeasure simEnd period step ts = n →
      ∀ x ∈ windowStarts simEnd period step ts,
        ∃ k : ℕ, x = ts + k * step.val ∧ x + period ≤ simEnd by
    intro ts x hx
    exact H _ ts rfl x hx
  intro n
  induction n using Nat.strong_induction_on with
  | _ n IH =>
    intro ts hts x hx
    rw [windowStarts] at hx
    by_cases h : ts + period ≤ simEnd
    · rw [dif_pos h] at hx
      rcases List.mem_cons.mp hx with rfl | hx2
      · exact ⟨0, by push_cast; ring, by linarith⟩
      · rcases IH _ (hts ▸ winMeasure_decreases h) _ rfl x hx2 with ⟨k, hk, hcond⟩
        exact ⟨k + 1, by rw [hk]; push_cast; ring, hcond⟩
    · rw [dif_neg h] at hx
      cases hx

theorem windowStarts_mem_of_le (simEnd period : ℚ) (step : PosStep) :
    ∀ (k : ℕ) (ts : ℚ), ts + k * step.val + period ≤ simEnd →
      ts + k * step.val ∈ windowStarts simEnd period step ts := by
  intro k
  induction k with
  | zero =>
    intro ts h
    have hcond : ts + period ≤ simEnd := by
      push_cast at h
      linarith
    rw [windowStarts, dif_pos hcond]
    have : ts + (0 : ℕ) * step.val = ts := by push_cast; ring
    rw [this]
    exact List.mem_cons_self _ _
  | succ k ih =>
    intro ts h
    have hstep : (0 : ℚ) ≤ (k : ℚ) * step.val :=
      mul_nonneg (Nat.cast_nonneg k) (le_of_lt step.property)
    have hcond : ts + period ≤ simEnd := by
      push_cast at h
      nlinarith [step.property]
    rw [windowStarts, dif_pos hcond]
    have heq : ts + ((k : ℕ) + 1 : ℕ) * step.val =
        (ts + step.val) + (k : ℕ) * step.val := by
      push_cast
      ring
    rw [heq]
    refine List.mem_cons_of_mem _ (ih (ts + step.val) ?_)
    rw [← heq]
    exact h

theorem windowStarts_sorted (simEnd period : ℚ) (step : PosStep) :
    ∀ ts, (windowStarts simEnd period step ts).Pairwise (fun a b => a < b) := by
  suffices H : ∀ n ts, winMeasure simEnd period step ts = n →
      (windowStarts simEnd period step ts).Pairwise (fun a b => a < b) by
    intro ts
    exact H _ ts rfl
  intro n
  induction n using Nat.strong_induction_on with
  | _ n IH =>
    intro ts hts
    rw [windowStarts]
    by_cases h : ts + period ≤ simEnd
    · rw [dif_pos h]
      refine List.Pairwise.cons ?_ (IH _ (hts ▸ winMeasure_decreases h) _ rfl)
      intro y hy
      rcases mem_windowStarts simEnd period step _ y hy with ⟨k, rfl, _⟩
      have : (0 : ℚ) ≤ (k : ℚ) * step.val :=
        mul_nonneg (Nat.cast_nonneg k) (le_of_lt step.property)
      have := step.property
      linarith
    · rw [dif_neg h]
      exact List.Pairwise.nil

/-- One emitted window inequality: the window start, the list of
(coefficient, contact id) terms of the weighted sum, and the threshold. -/
structure WindowConstr where
  ts : ℚ
  terms : List (ℚ × ℕ)
  bound : ℚ
deriving DecidableEq

/-- Weighted terms of a downlink window at start ts: over the contacts
sorted by start time whose interval intersects the closed window
(t_end at least ts and t_start at most ts + period), with weight
datarate times t_duration per contact. -/
def downlinkTerms (cs : List Contact) (period ts : ℚ) : List (ℚ × ℕ) :=
  ((sortByStart cs).filter
      (fun c => decide (ts ≤ c.t_end) && decide (c.t_start ≤ ts + period))).map
    (fun c => (c.datarate * c.t_duration, c.id))

/-- Terms of a contact-count window at start ts: the same intersection
filter with weight 1 per contact. -/
def countTerms (cs : List Contact) (period ts : ℚ) : List (ℚ × ℕ) :=
  ((sortByStart cs).filter
      (fun c => decide (ts ≤ c.t_end) && decide (c.t_start ≤ ts + period))).map
    (fun c => ((1 : ℚ), c.id))

/-- While loop of MinConstellationDataDownlinkConstraint._generate_constraints:
one inequality (weighted sum at least value) per window while
ts + period at most sim_end. -/
def minDownlinkLoop (cs : List Contact) (value period : ℚ) (step : PosStep)
    (simEnd ts : ℚ) : List WindowConstr :=
  if h : ts + period ≤ simEnd then
    ⟨ts, downlinkTerms cs period ts, value⟩ ::
      minDownlinkLoop cs value period step simEnd (ts + step.val)
  else []
termination_by winMeasure simEnd period step ts
decreasing_by exact winMeasure_decreases h

/-- MinConstellationDataDownlinkConstraint._generate_constraints. -/
def MinConstellationDataDownlinkConstraint.generate (cs : List Contact)
    (value period : ℚ) (step : PosStep) (simStart simEnd : ℚ) :
    List WindowConstr :=
  minDownlinkLoop cs value period step simEnd simStart

/-- While loop of MaxContactsPerPeriodConstraint._generate_constraints:
one inequality (contact count at most value) per window while
ts + period at most sim_end. -/
def maxContactsLoop (cs : List Contact) (value : ℤ) (period : ℚ)
    (step : PosStep) (simEnd ts : ℚ) : List WindowConstr :=
  if h : ts + period ≤ simEnd then
    ⟨ts, countTerms cs period ts, (value : ℚ)⟩ ::
      maxContactsLoop cs value period step simEnd (ts + step.val)
  else []
termination_by winMeasure simEnd period step ts
decreasing_by exact winMeasure_decreases h

/-- MaxContactsPerPeriodConstraint._generate_constraints. -/
def MaxContactsPerPeriodConstraint.generate (cs : List Contact) (value : ℤ)
    (period : ℚ) (step : PosStep) (simStart simEnd : ℚ) : List WindowConstr :=
  maxContactsLoop cs value period step simEnd simStart

theorem minDownlinkLoop_eq_map (cs : List Contact) (value period : ℚ)
    (step : PosStep) (simEnd : ℚ) :
    ∀ ts, minDownlinkLoop cs value period step simEnd ts =
      (windowStarts simEnd period step ts).map
        (fun t => ⟨t, downlinkTerms cs period t, value⟩) := by
  suffices H : ∀ n ts, winMeasure simEnd period step ts = n →
      minDownlinkLoop cs value period step simEnd ts =
        (windowStarts simEnd period step ts).map
          (fun t => ⟨t, downlinkTerms cs period t, value⟩) by
    intro ts
    exact H _ ts rfl
  intro n
  induction n using Nat.strong_induction_on with
  | _ n IH =>
    intro ts hts
    rw [minDownlinkLoop, windowStarts]
    by_cases h : ts + period ≤ simEnd
    · rw [dif_pos h, dif_pos h, List.map_cons]
      congr 1
      exact IH _ (hts ▸ winMeasure_decreases h) _ rfl
    · rw [dif_neg h, dif_neg h]
      rfl

theorem maxContactsLoop_eq_map (cs : List Contact) (value : ℤ) (period : ℚ)
    (step : PosStep) (simEnd : ℚ) :
    ∀ ts, maxContactsLoop cs value period step simEnd ts =
      (windowStarts simEnd period step ts).map
        (fun t => ⟨t, countTerms cs period t, (value : ℚ)⟩) := by
  suffices H : ∀ n ts, winMeasure simEnd period step ts = n →
      maxContactsLoop cs value period step simEnd ts =
        (windowStarts simEnd period step ts).map
          (fun t => ⟨t, countTerms cs period t, (value : ℚ)⟩) by
    intro ts
    exact H _ ts rfl
  intro n
  induction n using Nat.strong_induction_on with
  | _ n IH =>
    intro ts hts
    rw [maxContactsLoop, windowStarts]
    by_cases h : ts + period ≤ simEnd
    · rw [dif_pos h, dif_pos h, List.map_cons]
      congr 1
      exact IH _ (hts ▸ winMeasure_decreases h) _ rfl
    · rw [dif_neg h, dif_neg h]
      rfl

/-- C9: both sliding-window generators emit exactly one inequality per
window start sim_start + k * step with k a natural number and
start + period at most sim_end (the start list is strictly increasing,
hence duplicate-free); each inequality sums weight times variable over the
contacts intersecting the closed window, with weight datarate times
duration for the downlink constraint and 1 for the count constraint; and
when period exceeds sim_end - sim_start both generators emit nothing. -/
theorem sliding_window_generation (cs : List Contact) (value : ℚ)
    (cvalue : ℤ) (period : ℚ) (step : PosStep) (simStart simEnd : ℚ) :
    (∀ x ∈ (MinConstellationDataDownlinkConstraint.generate cs value period
        step simStart simEnd).map WindowConstr.ts,
      ∃ k : ℕ, x = simStart + k * step.val ∧ x + period ≤ simEnd)
    ∧ (∀ k : ℕ, simStart + k * step.val + period ≤ simEnd →
        simStart + k * step.val ∈
          (MinConstellationDataDownlinkConstraint.generate cs value period
            step simStart simEnd).map WindowConstr.ts)
    ∧ ((MinConstellationDataDownlinkConstraint.generate cs value period step
        simStart simEnd).map WindowConstr.ts).Nodup
    ∧ (∀ wc ∈ MinConstellationDataDownlinkConstraint.generate cs value period
        step simStart simEnd,
        wc.terms = downlinkTerms cs period wc.ts ∧ wc.bound = value)
    ∧ (∀ x ∈ (MaxContactsPerPeriodConstraint.generate cs cvalue period step
        simStart simEnd).map WindowConstr.ts,
      ∃ k : ℕ, x = simStart + k * step.val ∧ x + period ≤ simEnd)
    ∧ (∀ k : ℕ, simStart + k * step.val + period ≤ simEnd →
        simStart + k * step.val ∈
          (MaxContactsPerPeriodConstraint.generate cs cvalue period step
            simStart simEnd).map WindowConstr.ts)
    ∧ ((MaxContactsPerPeriodConstraint.generate cs cvalue period step
        simStart simEnd).map WindowConstr.ts).Nodup
    ∧ (∀ wc ∈ MaxContactsPerPeriodConstraint.generate cs cvalue period step
        simStart simEnd,
        wc.terms = countTerms cs period wc.ts ∧ wc.bound = (cvalue : ℚ))
    ∧ (simEnd - simStart < period →
        MinConstellationDataDownlinkConstraint.generate cs value period step
          simStart simEnd = []
        ∧ MaxContactsPerPeriodConstraint.generate cs cvalue period step
            simStart simEnd = []) := by
  have hts1 : (MinConstellationDataDownlinkConstraint.generate cs value period
      step simStart simEnd).map WindowConstr.ts =
      windowStarts simEnd period step simStart := by
    unfold MinConstellationDataDownlinkConstraint.generate
    rw [minDownlinkLoop_eq_map, List.map_map]
    exact List.map_id _
  have hts2 : (MaxContactsPerPeriodConstraint.generate cs cvalue period step
      simStart simEnd).map WindowConstr.ts =
      windowStarts simEnd period step simStart := by
    unfold MaxContactsPerPeriodConstraint.generate
    rw [maxContactsLoop_eq_map, List.map_map]
    exact List.map_id _
  have hnodup : (windowStarts simEnd period step simStart).Nodup :=
    (windowStarts_sorted simEnd period step simStart).imp ne_of_lt
  refine ⟨?_, ?_, ?_, ?_, ?_, ?_, ?_, ?_, ?_⟩
  · rw [hts1]
    exact mem_windowStarts simEnd period step simStart
  · intro k hk
    rw [hts1]
    exact windowStarts_mem_of_le simEnd period step k simStart hk
  · rw [hts1]
    exact hnodup
  · intro wc hwc
    unfold MinConstellationDataDownlinkConstraint.generate at hwc
    rw [minDownlinkLoop_eq_map] at hwc
    rcases List.mem_map.mp hwc with ⟨t, _, rfl⟩
    exact ⟨rfl, rfl⟩
  · rw [hts2]
    exact mem_windowStarts simEnd period step simStart
  · intro k hk
    rw [hts2]
    exact windowStarts_mem_of_le simEnd period step k simStart hk
  · rw [hts2]
    exact hnodup
  · intro wc hwc
    unfold MaxContactsPerPeriodConstraint.generate at hwc
    rw [maxContactsLoop_eq_map] at hwc
    rcases List.mem_map.mp hwc with ⟨t, _, rfl⟩
    exact ⟨rfl, rfl⟩
  · intro hlong
    have hcond : ¬(simStart + period ≤ simEnd) := by linarith
    constructor
    · unfold MinConstellationDataDownlinkConstraint.generate
      rw [minDownlinkLoop, dif_neg hcond]
    · unfold MaxContactsPerPeriodConstraint.generate
      rw [maxContactsLoop, dif_neg hcond]

/-- C9 witness: with sim window of length 2 and period 1, window start 0
(k = 0) is generated. -/
theorem sliding_window_generation_witness :
    ((0 : ℚ) + (0 : ℕ) * (⟨1, by norm_num⟩ : PosStep).val + 1 ≤ 2)
    ∧ (0 : ℚ) + (0 : ℕ) * (⟨1, by norm_num⟩ : PosStep).val ∈
        (MinConstellationDataDownlinkConstraint.generate [] 5 1
          ⟨1, by norm_num⟩ 0 2).map WindowConstr.ts :=
  ⟨by norm_num,
    (sliding_window_generation [] 5 3 1 ⟨1, by norm_num⟩ 0 2).2.1 0
      (by norm_num)⟩

end GSOpt
